import Mathlib

/-!
Verification of the time-series normalization and aggregation engine of the
dashboard repository (`src/lib/thingspeak.ts`).

Embedding conventions:
* JavaScript numbers are modelled as rationals (`ℚ`); every value that the
  engine manipulates is produced by `Number.parseFloat` and survives a
  `Number.isFinite` check upstream, so `NaN`/`Infinity` never reach the code
  under study, and the claims are about order and exact algebra, not rounding.
* Millisecond epochs are integers (`Int`), as produced by `Date.parse` /
  `Date.prototype.getTime`.
* `Date.parse` on arbitrary strings is an abstract parameter
  `dateParse : String → Option Int` (`none` models `NaN`).
* A JavaScript `Date` object is identified with its epoch (`getTime()`), and
  an ISO string produced by `toISOString` is identified with the epoch it
  renders: `toISOString` is injective and `Date.parse` inverts it exactly on
  valid dates, so carrying the epoch is faithful.  UTC field getters and
  setters are modelled with the standard civil-calendar conversions
  (`civilFromDays` / `daysFromCivil`), which is exactly the proleptic
  Gregorian, leap-second-free calendar ECMAScript prescribes.
* A JavaScript `Map` is an association list in insertion order: updating an
  existing key keeps its position, a new key is appended at the end.
* `Array.prototype.sort` is a stable sort (guaranteed since ES2019); it is
  modelled by `List.mergeSort`, which is stable.
-/

namespace Dash

/-- `const ONE_HOUR_MS = 60 * 60 * 1000` (thingspeak.ts l.125). -/
def ONE_HOUR_MS : Int := 60 * 60 * 1000

/-- `const ONE_DAY_MS = 24 * ONE_HOUR_MS` (thingspeak.ts l.126). -/
def ONE_DAY_MS : Int := 24 * ONE_HOUR_MS

/-- `const ONE_MONTH_MS = 30 * ONE_DAY_MS` (thingspeak.ts l.127). -/
def ONE_MONTH_MS : Int := 30 * ONE_DAY_MS

/-- `ChartValuePoint = { timestamp: string | null; value: number | null }`. -/
structure ChartValuePoint where
  timestamp : Option String
  value : Option ℚ
deriving DecidableEq

/-- `MetricPoint = { timestamp: string; epochMs: number; value: number }`. -/
structure MetricPoint where
  timestamp : String
  epochMs : Int
  value : ℚ
deriving DecidableEq

/-- `AggregateBucket` (thingspeak.ts l.98-104).  The `label` field is a
locale-formatted presentation string computed by `formatBucketLabel` from
`startIso` alone; it carries no numeric content and is omitted from the
model.  `startIso` is the bucket's start instant (the epoch the ISO string
denotes). -/
structure AggregateBucket where
  startIso : Int
  average : Option ℚ
  total : Option ℚ
  count : Nat
deriving DecidableEq

/-- `MetricAggregates` (thingspeak.ts l.106-123). -/
structure MetricAggregates where
  latestValue : Option ℚ
  latestTimestamp : Option String
  min : Option ℚ
  max : Option ℚ
  average : Option ℚ
  sum : Option ℚ
  sampleCount : Nat
  lastHourAverage : Option ℚ
  lastDayAverage : Option ℚ
  lastMonthAverage : Option ℚ
  lastHourTotal : Option ℚ
  lastDayTotal : Option ℚ
  lastMonthTotal : Option ℚ
  hourlyBuckets : List AggregateBucket
  dailyBuckets : List AggregateBucket
  monthlyBuckets : List AggregateBucket
deriving DecidableEq

/-- The body of the `.map` callback in `buildMetricPoints`
(thingspeak.ts l.131-144): drop the point when `!point.timestamp` (null or
empty string), when `point.value === null`, or when `Date.parse` yields a
non-finite epoch; otherwise keep timestamp and value and attach the parsed
epoch. -/
def normalizeChartPoint (dateParse : String → Option Int) (point : ChartValuePoint) :
    Option MetricPoint :=
  match point.timestamp with
  | none => none
  | some ts =>
    if ts = "" then none
    else
      match point.value with
      | none => none
      | some v =>
        match dateParse ts with
        | none => none
        | some epochMs => some { timestamp := ts, epochMs := epochMs, value := v }

/-- Comparator of the final `.sort((a, b) => a.epochMs - b.epochMs)`:
`a` may stay before `b` iff `a.epochMs ≤ b.epochMs`. -/
def epochLe (a b : MetricPoint) : Bool :=
  decide (a.epochMs ≤ b.epochMs)

/-- `buildMetricPoints` (thingspeak.ts l.129-147): map each chart point
through the validation above, drop the `null`s (`map` + `filter` is
`filterMap`), and stably sort ascending by `epochMs`. -/
def buildMetricPoints (dateParse : String → Option Int)
    (chartPoints : List ChartValuePoint) : List MetricPoint :=
  (chartPoints.filterMap (normalizeChartPoint dateParse)).mergeSort epochLe

/-- `computeWindowAverage` (thingspeak.ts l.195-202). -/
def computeWindowAverage (points : List MetricPoint) (cutoffMs : Int) : Option ℚ :=
  let windowValues := points.filter fun point => decide (cutoffMs ≤ point.epochMs)
  if windowValues.length = 0 then none
  else some ((windowValues.foldl (fun acc point => acc + point.value) 0) /
    (windowValues.length : ℚ))

/-- `computeWindowTotal` (thingspeak.ts l.204-210). -/
def computeWindowTotal (points : List MetricPoint) (cutoffMs : Int) : Option ℚ :=
  let windowValues := points.filter fun point => decide (cutoffMs ≤ point.epochMs)
  if windowValues.length = 0 then none
  else some (windowValues.foldl (fun acc point => acc + point.value) 0)

/-- `type BucketMode = "hour" | "day" | "month"`. -/
inductive BucketMode where
  | hour | day | month
deriving DecidableEq

/-- Proleptic-Gregorian conversion of a day number (days since 1970-01-01)
to `(year, month, day)`, months `1..12`; this is how ECMAScript `Date`'s
UTC getters (`getUTCFullYear`, `getUTCMonth`, `getUTCDate`) are specified
to decode an epoch. -/
def civilFromDays (z0 : Int) : Int × Int × Int :=
  let z := z0 + 719468
  let era := z / 146097
  let doe := z - era * 146097
  let yoe := (doe - doe / 1460 + doe / 36524 - doe / 146096) / 365
  let y := yoe + era * 400
  let doy := doe - (365 * yoe + yoe / 4 - yoe / 100)
  let mp := (5 * doy + 2) / 153
  let d := doy - (153 * mp + 2) / 5 + 1
  let m := mp + (if mp < 10 then 3 else -9)
  (y + (if m ≤ 2 then 1 else 0), m, d)

/-- Inverse conversion: day number of the civil date `(y, m, d)`; this is
how `Date.UTC` / the UTC setters re-encode calendar fields into an epoch. -/
def daysFromCivil (y0 m d : Int) : Int :=
  let y := y0 - (if m ≤ 2 then 1 else 0)
  let era := y / 400
  let yoe := y - era * 400
  let doy := (153 * (m + (if m > 2 then -3 else 9)) + 2) / 5 + d - 1
  let doe := yoe * 365 + yoe / 4 - yoe / 100 + doy
  era * 146097 + doe - 719468

/-- `startOf` (thingspeak.ts l.253-266), returning the truncated `Date` as
its epoch.  `month`: `setUTCDate(1); setUTCHours(0,0,0,0)` keeps the UTC
year and month and moves to the first midnight; `day`:
`setUTCHours(0,0,0,0)` truncates to UTC midnight; `hour`:
`setUTCMinutes(0,0,0)` truncates to the top of the hour.  (`%` here is
`Int.emod`, whose remainder is non-negative, matching the floor-based UTC
field arithmetic of `Date`.) -/
def startOf (mode : BucketMode) (epochMs : Int) : Int :=
  match mode with
  | .month =>
    let c := civilFromDays (epochMs / ONE_DAY_MS)
    daysFromCivil c.1 c.2.1 1 * ONE_DAY_MS
  | .day => epochMs - epochMs % ONE_DAY_MS
  | .hour => epochMs - epochMs % ONE_HOUR_MS

/-- `bucketKey` (thingspeak.ts l.268-276) on the truncated date `start`:
the composite key `year-month(-day)(-hour)`.  The dash-joined decimal
string is injective in the component tuple (months, days and hours are
non-negative, so only the year can carry a sign), so the key is modelled
as the component list. -/
def bucketKey (mode : BucketMode) (start : Int) : List Int :=
  let c := civilFromDays (start / ONE_DAY_MS)
  match mode with
  | .month => [c.1, c.2.1]
  | .day => [c.1, c.2.1, c.2.2]
  | .hour => [c.1, c.2.1, c.2.2, (start / ONE_HOUR_MS) % 24]

/-- The per-key accumulator record of `buildBuckets`' `Map`
(thingspeak.ts l.219-222); `startIso` is the epoch denoted by
`bucketStart.toISOString()` and `startEpoch` is `bucketStart.getTime()`
(the same instant). -/
structure BucketStats where
  sum : ℚ
  count : Nat
  startIso : Int
  startEpoch : Int
deriving DecidableEq

/-- One iteration of the `for (const point of points)` loop
(thingspeak.ts l.224-239) on the insertion-ordered map: an existing key
accumulates in place, a new key is appended with a fresh record. -/
def updateBuckets (buckets : List (List Int × BucketStats)) (key : List Int)
    (point : MetricPoint) (bucketStart : Int) : List (List Int × BucketStats) :=
  match buckets with
  | [] => [(key, { sum := point.value, count := 1,
                   startIso := bucketStart, startEpoch := bucketStart })]
  | (k, s) :: rest =>
    if k = key then
      (k, { s with sum := s.sum + point.value, count := s.count + 1 }) :: rest
    else
      (k, s) :: updateBuckets rest key point bucketStart

/-- The loop body of `buildBuckets`: truncate the point's epoch, form the
key, and accumulate. -/
def insertBucketPoint (mode : BucketMode) (buckets : List (List Int × BucketStats))
    (point : MetricPoint) : List (List Int × BucketStats) :=
  let bucketStart := startOf mode point.epochMs
  updateBuckets buckets (bucketKey mode bucketStart) point bucketStart

/-- Comparator of `.sort((a, b) => Date.parse(b.startIso) - Date.parse(a.startIso))`:
`a` may stay before `b` iff `b.startIso ≤ a.startIso` (descending). -/
def bucketLe (a b : AggregateBucket) : Bool :=
  decide (b.startIso ≤ a.startIso)

/-- `buildBuckets` (thingspeak.ts l.214-251): accumulate every point into
its calendar bucket, turn each accumulator into an `AggregateBucket`
(`average` is guarded by `count > 0`, `total` is always the running sum),
sort descending by the parsed `startIso`, and `slice(0, limit)`. -/
def buildBuckets (points : List MetricPoint) (mode : BucketMode) (limit : Nat) :
    List AggregateBucket :=
  if points.length = 0 then []
  else
    let buckets := points.foldl (insertBucketPoint mode) []
    (((buckets.map fun e =>
        ({ startIso := e.2.startIso,
           average := if e.2.count > 0 then some (e.2.sum / (e.2.count : ℚ)) else none,
           total := some e.2.sum,
           count := e.2.count } : AggregateBucket))).mergeSort bucketLe).take limit

/-- `computeMetricAggregates` (thingspeak.ts l.149-193).  For non-empty
input the reference instant is the last point's `epochMs` (the
`?? Date.now()` fallback is unreachable), `Math.min(...values)` /
`Math.max(...values)` fold the binary min/max over the non-empty value
list, and the six windowed statistics use the three fixed cutoffs. -/
def computeMetricAggregates (points : List MetricPoint) : MetricAggregates :=
  match points with
  | [] =>
    { latestValue := none
      latestTimestamp := none
      min := none
      max := none
      average := none
      sum := none
      sampleCount := 0
      lastHourAverage := none
      lastDayAverage := none
      lastMonthAverage := none
      lastHourTotal := none
      lastDayTotal := none
      lastMonthTotal := none
      hourlyBuckets := []
      dailyBuckets := []
      monthlyBuckets := [] }
  | p :: ps =>
    let points := p :: ps
    let values := points.map (·.value)
    let sum := values.foldl (· + ·) 0
    let last := points.getLast (List.cons_ne_nil p ps)
    let referenceMs := last.epochMs
    { latestValue := some last.value
      latestTimestamp := some last.timestamp
      min := some ((ps.map (·.value)).foldl Min.min p.value)
      max := some ((ps.map (·.value)).foldl Max.max p.value)
      average := some (sum / (points.length : ℚ))
      sum := some sum
      sampleCount := points.length
      lastHourAverage := computeWindowAverage points (referenceMs - ONE_HOUR_MS)
      lastDayAverage := computeWindowAverage points (referenceMs - ONE_DAY_MS)
      lastMonthAverage := computeWindowAverage points (referenceMs - ONE_MONTH_MS)
      lastHourTotal := computeWindowTotal points (referenceMs - ONE_HOUR_MS)
      lastDayTotal := computeWindowTotal points (referenceMs - ONE_DAY_MS)
      lastMonthTotal := computeWindowTotal points (referenceMs - ONE_MONTH_MS)
      hourlyBuckets := buildBuckets points .hour 12
      dailyBuckets := buildBuckets points .day 10
      monthlyBuckets := buildBuckets points .month 6 }

/-- The stateful `.map` of `deriveDifferentialSeries`
(thingspeak.ts l.316-335), with the captured `previous` cursor made an
explicit argument.  `Number.isFinite` holds of every rational, so the
non-finite disjuncts of the two guards are vacuous in the model. -/
def differentialGo (clampNegative : Bool) :
    Option ℚ → List ChartValuePoint → List ChartValuePoint
  | _, [] => []
  | previous, point :: rest =>
    match point.value with
    | none => { point with value := none } :: differentialGo clampNegative none rest
    | some current =>
      match previous with
      | none => { point with value := none } :: differentialGo clampNegative (some current) rest
      | some prev =>
        let diff := current - prev
        let diff := if diff < 0 then (if clampNegative then max 0 current else diff) else diff
        { point with value := some diff } :: differentialGo clampNegative (some current) rest

/-- `deriveDifferentialSeries` (thingspeak.ts l.309-336); `clampNegative`
defaults to `true` as in `const { clampNegative = true } = options`. -/
def deriveDifferentialSeries (chartPoints : List ChartValuePoint)
    (clampNegative : Bool := true) : List ChartValuePoint :=
  differentialGo clampNegative none chartPoints

/-- Loop invariant of the bucket-accumulation `for` loop of `buildBuckets`
after processing the prefix `procd`: keys are distinct, every processed
point's key is present, and each entry records its own key and start
consistently together with the exact count and sum of the processed points
that map to it. -/
def BucketInvariant (mode : BucketMode) (procd : List MetricPoint)
    (entries : List (List Int × BucketStats)) : Prop :=
  (entries.map Prod.fst).Nodup ∧
  (∀ q ∈ procd, bucketKey mode (startOf mode q.epochMs) ∈ entries.map Prod.fst) ∧
  (∀ e ∈ entries,
    e.1 = bucketKey mode e.2.startIso ∧
    e.2.startEpoch = e.2.startIso ∧
    (∃ q ∈ procd, startOf mode q.epochMs = e.2.startIso) ∧
    e.2.count = (procd.filter fun q =>
      decide (bucketKey mode (startOf mode q.epochMs) = e.1)).length ∧
    e.2.sum = ((procd.filter fun q =>
      decide (bucketKey mode (startOf mode q.epochMs) = e.1)).map (·.value)).sum)

/-! ### Theorems -/

/-- C3: `computeMetricAggregates` on the empty list returns, without any
error, the aggregates record in which every numeric field is `null`,
`latestTimestamp` is `null`, `sampleCount` is `0`, and the three bucket
lists are empty. -/
theorem computeMetricAggregates_empty :
    computeMetricAggregates [] =
      { latestValue := none
        latestTimestamp := none
        min := none
        max := none
        average := none
        sum := none
        sampleCount := 0
        lastHourAverage := none
        lastDayAverage := none
        lastMonthAverage := none
        lastHourTotal := none
        lastDayTotal := none
        lastMonthTotal := none
        hourlyBuckets := []
        dailyBuckets := []
        monthlyBuckets := [] } := rfl

/-- C2: with clamping enabled (the default), the counter series
`[10, 15, 12, 20]` yields deltas `[null, 5, 12, 8]`: the regression
`15 → 12` clamps to `max(0, 12) = 12` (the current value, not the raw
negative delta), and the cursor still advances so the next delta is
`20 - 12 = 8`. -/
theorem deriveDifferentialSeries_clamp_example :
    deriveDifferentialSeries
        [⟨some "t0", some 10⟩, ⟨some "t1", some 15⟩,
         ⟨some "t2", some 12⟩, ⟨some "t3", some 20⟩] =
      [⟨some "t0", none⟩, ⟨some "t1", some 5⟩,
       ⟨some "t2", some 12⟩, ⟨some "t3", some 8⟩] := by
  norm_num [deriveDifferentialSeries, differentialGo]

/-- C7: the series `[null, 10, null, 20]` yields `[null, null, null, null]`:
a null reading emits null and overwrites the `previous` cursor with null,
so the real value after each gap also emits null. -/
theorem deriveDifferentialSeries_gap_example :
    deriveDifferentialSeries
        [⟨some "t0", none⟩, ⟨some "t1", some 10⟩,
         ⟨some "t2", none⟩, ⟨some "t3", some 20⟩] =
      [⟨some "t0", none⟩, ⟨some "t1", none⟩,
       ⟨some "t2", none⟩, ⟨some "t3", none⟩] := by
  norm_num [deriveDifferentialSeries, differentialGo]

theorem differentialGo_map_timestamp (clampNegative : Bool) :
    ∀ (previous : Option ℚ) (l : List ChartValuePoint),
      (differentialGo clampNegative previous l).map (·.timestamp)
        = l.map (·.timestamp)
  | _, [] => rfl
  | previous, point :: rest => by
    cases hv : point.value with
    | none => simpa [differentialGo, hv] using
        differentialGo_map_timestamp clampNegative none rest
    | some current =>
      cases previous with
      | none => simpa [differentialGo, hv] using
          differentialGo_map_timestamp clampNegative (some current) rest
      | some prev => simpa [differentialGo, hv] using
          differentialGo_map_timestamp clampNegative (some current) rest

/-- C8: for every input and either clamping mode, the differential series
has the same length as the input and the point at each position keeps
exactly the input point's timestamp — only the value field changes. -/
theorem deriveDifferentialSeries_frame
    (chartPoints : List ChartValuePoint) (clampNegative : Bool) :
    (deriveDifferentialSeries chartPoints clampNegative).length
        = chartPoints.length ∧
    (deriveDifferentialSeries chartPoints clampNegative).map (·.timestamp)
        = chartPoints.map (·.timestamp) := by
  have h := differentialGo_map_timestamp clampNegative none chartPoints
  refine ⟨?_, h⟩
  have := congrArg List.length h
  simpa using this

theorem aggregates_sum_cons (p : MetricPoint) (ps : List MetricPoint) :
    (computeMetricAggregates (p :: ps)).sum =
      some (((p :: ps).map (·.value)).foldl (· + ·) 0) := rfl

theorem aggregates_lastHourAverage_cons (p : MetricPoint) (ps : List MetricPoint) :
    (computeMetricAggregates (p :: ps)).lastHourAverage =
      computeWindowAverage (p :: ps)
        (((p :: ps).getLast (List.cons_ne_nil p ps)).epochMs - ONE_HOUR_MS) := rfl

theorem aggregates_lastDayAverage_cons (p : MetricPoint) (ps : List MetricPoint) :
    (computeMetricAggregates (p :: ps)).lastDayAverage =
      computeWindowAverage (p :: ps)
        (((p :: ps).getLast (List.cons_ne_nil p ps)).epochMs - ONE_DAY_MS) := rfl

theorem aggregates_lastMonthAverage_cons (p : MetricPoint) (ps : List MetricPoint) :
    (computeMetricAggregates (p :: ps)).lastMonthAverage =
      computeWindowAverage (p :: ps)
        (((p :: ps).getLast (List.cons_ne_nil p ps)).epochMs - ONE_MONTH_MS) := rfl

theorem aggregates_lastHourTotal_cons (p : MetricPoint) (ps : List MetricPoint) :
    (computeMetricAggregates (p :: ps)).lastHourTotal =
      computeWindowTotal (p :: ps)
        (((p :: ps).getLast (List.cons_ne_nil p ps)).epochMs - ONE_HOUR_MS) := rfl

theorem aggregates_lastDayTotal_cons (p : MetricPoint) (ps : List MetricPoint) :
    (computeMetricAggregates (p :: ps)).lastDayTotal =
      computeWindowTotal (p :: ps)
        (((p :: ps).getLast (List.cons_ne_nil p ps)).epochMs - ONE_DAY_MS) := rfl

theorem aggregates_lastMonthTotal_cons (p : MetricPoint) (ps : List MetricPoint) :
    (computeMetricAggregates (p :: ps)).lastMonthTotal =
      computeWindowTotal (p :: ps)
        (((p :: ps).getLast (List.cons_ne_nil p ps)).epochMs - ONE_MONTH_MS) := rfl

theorem aggregates_hourlyBuckets_cons (p : MetricPoint) (ps : List MetricPoint) :
    (computeMetricAggregates (p :: ps)).hourlyBuckets =
      buildBuckets (p :: ps) .hour 12 := rfl

theorem aggregates_dailyBuckets_cons (p : MetricPoint) (ps : List MetricPoint) :
    (computeMetricAggregates (p :: ps)).dailyBuckets =
      buildBuckets (p :: ps) .day 10 := rfl

theorem aggregates_monthlyBuckets_cons (p : MetricPoint) (ps : List MetricPoint) :
    (computeMetricAggregates (p :: ps)).monthlyBuckets =
      buildBuckets (p :: ps) .month 6 := rfl

theorem foldl_add_points (l : List MetricPoint) (a : ℚ) :
    l.foldl (fun acc point => acc + point.value) a = a + (l.map (·.value)).sum := by
  induction l generalizing a with
  | nil => simp
  | cons p ps ih => simp [ih, add_assoc]

theorem foldl_add_rat (l : List ℚ) (a : ℚ) :
    l.foldl (· + ·) a = a + l.sum := by
  induction l generalizing a with
  | nil => simp
  | cons p ps ih => simp [ih, add_assoc]

theorem computeWindowAverage_ne_none (points : List MetricPoint) (h : points ≠ [])
    (cutoff : Int) (hc : cutoff ≤ (points.getLast h).epochMs) :
    computeWindowAverage points cutoff ≠ none := by
  have hmem : points.getLast h ∈
      points.filter (fun point => decide (cutoff ≤ point.epochMs)) := by
    rw [List.mem_filter]
    exact ⟨List.getLast_mem h, by simpa using hc⟩
  have hne : (points.filter (fun point => decide (cutoff ≤ point.epochMs))).length ≠ 0 := by
    intro hz
    rw [List.length_eq_zero] at hz
    simp [hz] at hmem
  simp only [computeWindowAverage]
  simp [hne]

theorem computeWindowTotal_ne_none (points : List MetricPoint) (h : points ≠ [])
    (cutoff : Int) (hc : cutoff ≤ (points.getLast h).epochMs) :
    computeWindowTotal points cutoff ≠ none := by
  have hmem : points.getLast h ∈
      points.filter (fun point => decide (cutoff ≤ point.epochMs)) := by
    rw [List.mem_filter]
    exact ⟨List.getLast_mem h, by simpa using hc⟩
  have hne : (points.filter (fun point => decide (cutoff ≤ point.epochMs))).length ≠ 0 := by
    intro hz
    rw [List.length_eq_zero] at hz
    simp [hz] at hmem
  simp only [computeWindowTotal]
  simp [hne]

/-- C9: for every non-empty input, all six trailing-window statistics are
non-null: the reference instant is the last point's own `epochMs` and every
window duration is positive, so the last point itself always lies inside
each window and the empty-window `null` branch is unreachable. -/
theorem computeMetricAggregates_windows_nonnull
    (points : List MetricPoint) (h : points ≠ []) :
    (computeMetricAggregates points).lastHourAverage ≠ none ∧
    (computeMetricAggregates points).lastDayAverage ≠ none ∧
    (computeMetricAggregates points).lastMonthAverage ≠ none ∧
    (computeMetricAggregates points).lastHourTotal ≠ none ∧
    (computeMetricAggregates points).lastDayTotal ≠ none ∧
    (computeMetricAggregates points).lastMonthTotal ≠ none := by
  match points with
  | [] => exact absurd rfl h
  | p :: ps =>
    have hne : p :: ps ≠ [] := List.cons_ne_nil p ps
    have hhour : ((p :: ps).getLast hne).epochMs - ONE_HOUR_MS
        ≤ ((p :: ps).getLast hne).epochMs := by
      have : (0 : Int) < ONE_HOUR_MS := by decide
      omega
    have hday : ((p :: ps).getLast hne).epochMs - ONE_DAY_MS
        ≤ ((p :: ps).getLast hne).epochMs := by
      have : (0 : Int) < ONE_DAY_MS := by decide
      omega
    have hmonth : ((p :: ps).getLast hne).epochMs - ONE_MONTH_MS
        ≤ ((p :: ps).getLast hne).epochMs := by
      have : (0 : Int) < ONE_MONTH_MS := by decide
      omega
    refine ⟨?_, ?_, ?_, ?_, ?_, ?_⟩
    · rw [aggregates_lastHourAverage_cons]
      exact computeWindowAverage_ne_none (p :: ps) hne _ hhour
    · rw [aggregates_lastDayAverage_cons]
      exact computeWindowAverage_ne_none (p :: ps) hne _ hday
    · rw [aggregates_lastMonthAverage_cons]
      exact computeWindowAverage_ne_none (p :: ps) hne _ hmonth
    · rw [aggregates_lastHourTotal_cons]
      exact computeWindowTotal_ne_none (p :: ps) hne _ hhour
    · rw [aggregates_lastDayTotal_cons]
      exact computeWindowTotal_ne_none (p :: ps) hne _ hday
    · rw [aggregates_lastMonthTotal_cons]
      exact computeWindowTotal_ne_none (p :: ps) hne _ hmonth

/-- Witness for C9 at the one-point series `[("t", 0, 1)]`. -/
theorem computeMetricAggregates_windows_nonnull_witness :
    ([⟨"t", 0, 1⟩] : List MetricPoint) ≠ [] ∧
    ((computeMetricAggregates [⟨"t", 0, 1⟩]).lastHourAverage ≠ none ∧
     (computeMetricAggregates [⟨"t", 0, 1⟩]).lastDayAverage ≠ none ∧
     (computeMetricAggregates [⟨"t", 0, 1⟩]).lastMonthAverage ≠ none ∧
     (computeMetricAggregates [⟨"t", 0, 1⟩]).lastHourTotal ≠ none ∧
     (computeMetricAggregates [⟨"t", 0, 1⟩]).lastDayTotal ≠ none ∧
     (computeMetricAggregates [⟨"t", 0, 1⟩]).lastMonthTotal ≠ none) :=
  ⟨List.cons_ne_nil _ _,
    computeMetricAggregates_windows_nonnull [⟨"t", 0, 1⟩] (List.cons_ne_nil _ _)⟩

theorem computeWindowTotal_le (points : List MetricPoint)
    (hpos : ∀ p ∈ points, 0 ≤ p.value) (cutoff : Int) (t : ℚ)
    (ht : computeWindowTotal points cutoff = some t) :
    t ≤ (points.map (·.value)).sum := by
  simp only [computeWindowTotal] at ht
  by_cases hz :
      (points.filter (fun point => decide (cutoff ≤ point.epochMs))).length = 0
  · simp [hz] at ht
  · simp only [hz, if_false, Option.some.injEq] at ht
    subst ht
    rw [foldl_add_points, zero_add]
    refine List.Sublist.sum_le_sum (List.Sublist.map _ (List.filter_sublist _)) ?_
    intro a ha
    obtain ⟨p, hp, rfl⟩ := List.mem_map.mp ha
    exact hpos p hp

/-- C6: when every value is non-negative, each trailing-window total
(hour, day, month), whenever non-null, is at most the whole-series sum. -/
theorem computeMetricAggregates_window_totals_le_sum
    (points : List MetricPoint) (hpos : ∀ p ∈ points, 0 ≤ p.value) :
    (∀ t, (computeMetricAggregates points).lastHourTotal = some t →
      ∃ s, (computeMetricAggregates points).sum = some s ∧ t ≤ s) ∧
    (∀ t, (computeMetricAggregates points).lastDayTotal = some t →
      ∃ s, (computeMetricAggregates points).sum = some s ∧ t ≤ s) ∧
    (∀ t, (computeMetricAggregates points).lastMonthTotal = some t →
      ∃ s, (computeMetricAggregates points).sum = some s ∧ t ≤ s) := by
  match points with
  | [] =>
    refine ⟨?_, ?_, ?_⟩ <;> · intro t ht; simp [computeMetricAggregates] at ht
  | p :: ps =>
    have hsum : (computeMetricAggregates (p :: ps)).sum
        = some (((p :: ps).map (·.value)).sum) := by
      rw [aggregates_sum_cons, foldl_add_rat, zero_add]
    refine ⟨?_, ?_, ?_⟩
    · intro t ht
      rw [aggregates_lastHourTotal_cons] at ht
      exact ⟨((p :: ps).map (·.value)).sum, hsum,
        computeWindowTotal_le (p :: ps) hpos
          (((p :: ps).getLast (List.cons_ne_nil p ps)).epochMs - ONE_HOUR_MS) t ht⟩
    · intro t ht
      rw [aggregates_lastDayTotal_cons] at ht
      exact ⟨((p :: ps).map (·.value)).sum, hsum,
        computeWindowTotal_le (p :: ps) hpos
          (((p :: ps).getLast (List.cons_ne_nil p ps)).epochMs - ONE_DAY_MS) t ht⟩
    · intro t ht
      rw [aggregates_lastMonthTotal_cons] at ht
      exact ⟨((p :: ps).map (·.value)).sum, hsum,
        computeWindowTotal_le (p :: ps) hpos
          (((p :: ps).getLast (List.cons_ne_nil p ps)).epochMs - ONE_MONTH_MS) t ht⟩

/-- Witness for C6 at the one-point series `[("t", 0, 1)]`. -/
theorem computeMetricAggregates_window_totals_le_sum_witness :
    (∀ p ∈ ([⟨"t", 0, 1⟩] : List MetricPoint), 0 ≤ p.value) ∧
    ((∀ t, (computeMetricAggregates [⟨"t", 0, 1⟩]).lastHourTotal = some t →
       ∃ s, (computeMetricAggregates [⟨"t", 0, 1⟩]).sum = some s ∧ t ≤ s) ∧
     (∀ t, (computeMetricAggregates [⟨"t", 0, 1⟩]).lastDayTotal = some t →
       ∃ s, (computeMetricAggregates [⟨"t", 0, 1⟩]).sum = some s ∧ t ≤ s) ∧
     (∀ t, (computeMetricAggregates [⟨"t", 0, 1⟩]).lastMonthTotal = some t →
       ∃ s, (computeMetricAggregates [⟨"t", 0, 1⟩]).sum = some s ∧ t ≤ s)) := by
  have hpos : ∀ p ∈ ([⟨"t", 0, 1⟩] : List MetricPoint), 0 ≤ p.value := by
    intro p hp
    simp only [List.mem_singleton] at hp
    subst hp
    exact zero_le_one
  exact ⟨hpos, computeMetricAggregates_window_totals_le_sum [⟨"t", 0, 1⟩] hpos⟩

theorem epochLe_trans (a b c : MetricPoint) (hab : epochLe a b = true)
    (hbc : epochLe b c = true) : epochLe a c = true := by
  simp only [epochLe, decide_eq_true_eq] at *
  omega

theorem epochLe_total (a b : MetricPoint) : (epochLe a b || epochLe b a) = true := by
  simp only [epochLe, Bool.or_eq_true, decide_eq_true_eq]
  omega

theorem normalizeChartPoint_eq_some (dateParse : String → Option Int)
    (cp : ChartValuePoint) (q : MetricPoint) :
    normalizeChartPoint dateParse cp = some q ↔
      (cp.timestamp = some q.timestamp ∧ q.timestamp ≠ "" ∧
        cp.value = some q.value ∧ dateParse q.timestamp = some q.epochMs) := by
  obtain ⟨qts, qe, qv⟩ := q
  obtain ⟨ots, ov⟩ := cp
  cases ots with
  | none => simp [normalizeChartPoint]
  | some ts =>
    by_cases hts : ts = ""
    · subst hts
      simp only [normalizeChartPoint, if_pos rfl]
      constructor
      · intro h; exact absurd h (by simp)
      · rintro ⟨hsome, hne, -, -⟩
        exact absurd (Option.some.inj hsome).symm hne
    · cases ov with
      | none => simp [normalizeChartPoint, hts]
      | some v =>
        cases hdp : dateParse ts with
        | none =>
          simp only [normalizeChartPoint, if_neg hts, hdp]
          constructor
          · intro h; exact absurd h (by simp)
          · rintro ⟨hsome, -, -, hparse⟩
            obtain rfl : ts = qts := Option.some.inj hsome
            rw [hdp] at hparse
            exact absurd hparse (by simp)
        | some e =>
          simp only [normalizeChartPoint, if_neg hts, hdp, Option.some.injEq,
            MetricPoint.mk.injEq]
          constructor
          · rintro ⟨rfl, rfl, rfl⟩
            exact ⟨rfl, hts, rfl, hdp⟩
          · rintro ⟨rfl, -, rfl, hparse⟩
            rw [hdp] at hparse
            exact ⟨rfl, (Option.some.inj hparse), rfl⟩

theorem epochClass_pairwise (l : List MetricPoint) (e : Int) :
    (l.filter (fun q => decide (q.epochMs = e))).Pairwise
      (fun a b => epochLe a b = true) := by
  refine List.pairwise_of_forall_mem_list ?_
  intro a ha b hb
  have hae := List.of_mem_filter ha
  have hbe := List.of_mem_filter hb
  simp only [decide_eq_true_eq] at hae hbe
  simp only [epochLe, decide_eq_true_eq, hae, hbe]
  exact le_refl e

/-- C1: the Normalizer output is sorted ascending by `epochMs`; it is a
permutation of the validated input points (exactly those whose timestamp
is non-null/non-empty, whose value is non-null and whose timestamp parses
to a finite epoch, keeping timestamp and value and setting `epochMs` to
the parse); ties in `epochMs` keep the original relative order (for every
epoch `e`, the run of points with `epochMs = e` equals the corresponding
subsequence of the validated input, in order); and membership is exactly
the validated input points. -/
theorem buildMetricPoints_spec (dateParse : String → Option Int)
    (chartPoints : List ChartValuePoint) :
    List.Pairwise (fun a b => a.epochMs ≤ b.epochMs)
        (buildMetricPoints dateParse chartPoints) ∧
    (buildMetricPoints dateParse chartPoints).Perm
        (chartPoints.filterMap (normalizeChartPoint dateParse)) ∧
    (∀ e : Int, (buildMetricPoints dateParse chartPoints).filter
          (fun q => decide (q.epochMs = e))
        = (chartPoints.filterMap (normalizeChartPoint dateParse)).filter
          (fun q => decide (q.epochMs = e))) ∧
    (∀ q, q ∈ buildMetricPoints dateParse chartPoints ↔
      ∃ cp ∈ chartPoints, cp.timestamp = some q.timestamp ∧ q.timestamp ≠ "" ∧
        cp.value = some q.value ∧ dateParse q.timestamp = some q.epochMs) := by
  have hperm : (buildMetricPoints dateParse chartPoints).Perm
      (chartPoints.filterMap (normalizeChartPoint dateParse)) :=
    List.mergeSort_perm _ _
  refine ⟨?_, hperm, ?_, ?_⟩
  · have h := List.sorted_mergeSort epochLe_trans epochLe_total
      (chartPoints.filterMap (normalizeChartPoint dateParse))
    refine h.imp ?_
    intro a b hab
    simpa [epochLe] using hab
  · intro e
    set valid := chartPoints.filterMap (normalizeChartPoint dateParse) with hvalid
    have hclass := epochClass_pairwise valid e
    have hsub : (valid.filter (fun q => decide (q.epochMs = e))).Sublist
        (valid.mergeSort epochLe) :=
      List.sublist_mergeSort epochLe_trans epochLe_total hclass
        (List.filter_sublist valid)
    have hsub2 : (valid.filter (fun q => decide (q.epochMs = e))).Sublist
        ((valid.mergeSort epochLe).filter (fun q => decide (q.epochMs = e))) := by
      have h2 := hsub.filter (fun q => decide (q.epochMs = e))
      rw [List.filter_filter] at h2
      simpa only [Bool.and_self] using h2
    have hlen : ((valid.mergeSort epochLe).filter
          (fun q => decide (q.epochMs = e))).length
        = (valid.filter (fun q => decide (q.epochMs = e))).length :=
      ((List.mergeSort_perm valid epochLe).filter _).length_eq
    exact (hsub2.eq_of_length hlen.symm).symm
  · intro q
    rw [hperm.mem_iff, List.mem_filterMap]
    constructor
    · rintro ⟨cp, hcp, hn⟩
      exact ⟨cp, hcp, (normalizeChartPoint_eq_some dateParse cp q).mp hn⟩
    · rintro ⟨cp, hcp, hn⟩
      exact ⟨cp, hcp, (normalizeChartPoint_eq_some dateParse cp q).mpr hn⟩

set_option maxHeartbeats 4000000 in
theorem yoe_crux (doe : Int) (h0 : 0 ≤ doe) (h1 : doe ≤ 146096) :
    0 ≤ (doe - doe / 1460 + doe / 36524 - doe / 146096) / 365 ∧
    (doe - doe / 1460 + doe / 36524 - doe / 146096) / 365 ≤ 399 ∧
    365 * ((doe - doe / 1460 + doe / 36524 - doe / 146096) / 365) +
      ((doe - doe / 1460 + doe / 36524 - doe / 146096) / 365) / 4 -
      ((doe - doe / 1460 + doe / 36524 - doe / 146096) / 365) / 100 ≤ doe ∧
    doe < 365 * ((doe - doe / 1460 + doe / 36524 - doe / 146096) / 365 + 1) +
      ((doe - doe / 1460 + doe / 36524 - doe / 146096) / 365 + 1) / 4 -
      ((doe - doe / 1460 + doe / 36524 - doe / 146096) / 365 + 1) / 100 +
      ((doe - doe / 1460 + doe / 36524 - doe / 146096) / 365 + 1) / 400 := by
  obtain ⟨q, hq0, hq1, hq2, hq3⟩ :
      ∃ q : Int, 365 * q ≤ doe ∧ doe ≤ 365 * q + 364 ∧ 0 ≤ q ∧ q ≤ 400 :=
    ⟨doe / 365, by omega⟩
  interval_cases q <;> (try omega) <;>
    rcases le_or_lt (36524 : Int) doe with h1 | h1 <;>
    rcases le_or_lt (73048 : Int) doe with h2 | h2 <;>
    rcases le_or_lt (109572 : Int) doe with h3 | h3 <;>
    rcases le_or_lt (146096 : Int) doe with h4 | h4 <;> omega

theorem civilFromDays_month_range (z : Int) :
    1 ≤ (civilFromDays z).2.1 ∧ (civilFromDays z).2.1 ≤ 12 := by
  have h := yoe_crux (z + 719468 - (z + 719468) / 146097 * 146097)
    (by omega) (by omega)
  simp only [civilFromDays]
  split_ifs <;> omega

theorem daysFromCivil_eq (Y m d era yoe : Int)
    (hy : Y - (if m ≤ 2 then 1 else 0) = era * 400 + yoe)
    (h0 : 0 ≤ yoe) (h1 : yoe ≤ 399) :
    daysFromCivil Y m d = era * 146097 +
      (yoe * 365 + yoe / 4 - yoe / 100 +
        ((153 * (m + (if m > 2 then -3 else 9)) + 2) / 5 + d - 1)) - 719468 := by
  simp only [daysFromCivil]
  rw [hy]
  rw [show (era * 400 + yoe) / 400 = era by omega]
  rw [show era * 400 + yoe - era * 400 = yoe by omega]

theorem civilFromDays_eq (z era doe : Int) (h : z + 719468 = era * 146097 + doe)
    (h0 : 0 ≤ doe) (h1 : doe ≤ 146096) :
    civilFromDays z =
      (let yoe := (doe - doe / 1460 + doe / 36524 - doe / 146096) / 365
       let doy := doe - (365 * yoe + yoe / 4 - yoe / 100)
       let mp := (5 * doy + 2) / 153
       let m := mp + (if mp < 10 then 3 else -9)
       (yoe + era * 400 + (if m ≤ 2 then 1 else 0), m, doy - (153 * mp + 2) / 5 + 1)) := by
  simp only [civilFromDays]
  rw [h]
  rw [show (era * 146097 + doe) / 146097 = era by omega]
  rw [show era * 146097 + doe - era * 146097 = doe by omega]

theorem daysFromCivil_civilFromDays (z : Int) :
    daysFromCivil (civilFromDays z).1 (civilFromDays z).2.1 (civilFromDays z).2.2 = z := by
  simp only [civilFromDays]
  set w := z + 719468 with hw
  set era := w / 146097 with hera
  set doe := w - era * 146097 with hdoe
  set yoe := (doe - doe / 1460 + doe / 36524 - doe / 146096) / 365 with hyoe
  set doy := doe - (365 * yoe + yoe / 4 - yoe / 100) with hdoy
  set mp := (5 * doy + 2) / 153 with hmp
  have hcrux := yoe_crux doe (by omega) (by omega)
  rw [← hyoe] at hcrux
  have hdoy0 : 0 ≤ doy := by omega
  have hdoy1 : doy ≤ 365 := by omega
  have hmp0 : 0 ≤ mp := by omega
  have hmp1 : mp ≤ 11 := by omega
  by_cases hmp10 : mp < 10
  · rw [if_pos hmp10, if_neg (show ¬ (mp + 3 ≤ 2) by omega)]
    rw [daysFromCivil_eq (yoe + era * 400 + 0) (mp + 3) (doy - (153 * mp + 2) / 5 + 1)
      era yoe (by rw [if_neg (show ¬ (mp + 3 ≤ 2) by omega)]; omega) (by omega) (by omega)]
    rw [if_pos (show mp + 3 > 2 by omega), Int.add_neg_cancel_right]
    omega
  · rw [if_neg hmp10, if_pos (show mp + -9 ≤ 2 by omega)]
    rw [daysFromCivil_eq (yoe + era * 400 + 1) (mp + -9) (doy - (153 * mp + 2) / 5 + 1)
      era yoe (by rw [if_pos (show mp + -9 ≤ 2 by omega)]; omega) (by omega) (by omega)]
    rw [if_neg (show ¬ (mp + -9 > 2) by omega), Int.neg_add_cancel_right]
    omega

theorem yoe_unique (doe y1 y2 : Int)
    (h1a : 365 * y1 + y1 / 4 - y1 / 100 ≤ doe)
    (h1b : doe < 365 * (y1 + 1) + (y1 + 1) / 4 - (y1 + 1) / 100 + (y1 + 1) / 400)
    (h2a : 365 * y2 + y2 / 4 - y2 / 100 ≤ doe)
    (h2b : doe < 365 * (y2 + 1) + (y2 + 1) / 4 - (y2 + 1) / 100 + (y2 + 1) / 400)
    (hb0 : 0 ≤ y1) (hb1 : y1 ≤ 399) (hb2 : 0 ≤ y2) (hb3 : y2 ≤ 399) : y1 = y2 := by
  rcases lt_trichotomy y1 y2 with h | h | h
  · exfalso
    by_cases he : y2 = y1 + 1
    · subst he
      have e3 : (y1 + 1) / 400 = 0 := by omega
      omega
    · have e1 : (y1 + 1) / 4 ≤ y2 / 4 := by omega
      have e2 : y2 / 100 ≤ (y1 + 1) / 100 + (y2 - y1 - 1) / 100 + 1 := by omega
      have e3 : (y1 + 1) / 400 = 0 := by omega
      have e4 : (y2 - y1 - 1) / 100 ≤ y2 - y1 - 1 := by omega
      omega
  · exact h
  · exfalso
    by_cases he : y1 = y2 + 1
    · subst he
      have e3 : (y2 + 1) / 400 = 0 := by omega
      omega
    · have e1 : (y2 + 1) / 4 ≤ y1 / 4 := by omega
      have e2 : y1 / 100 ≤ (y2 + 1) / 100 + (y1 - y2 - 1) / 100 + 1 := by omega
      have e3 : (y2 + 1) / 400 = 0 := by omega
      have e4 : (y1 - y2 - 1) / 100 ≤ y1 - y2 - 1 := by omega
      omega

theorem civilFromDays_daysFromCivil_one (y m : Int) (hm1 : 1 ≤ m) (hm2 : m ≤ 12) :
    civilFromDays (daysFromCivil y m 1) = (y, m, 1) := by
  by_cases hm : m ≤ 2
  · rw [daysFromCivil_eq y m 1 ((y - 1) / 400) (y - 1 - (y - 1) / 400 * 400)
      (by rw [if_pos hm]; omega) (by omega) (by omega)]
    rw [if_neg (show ¬ (m > 2) by omega)]
    set era := (y - 1) / 400 with hera
    set yoe := y - 1 - era * 400 with hyoe
    set doy := (153 * (m + 9) + 2) / 5 + 1 - 1 with hdoy
    rw [civilFromDays_eq _ era (yoe * 365 + yoe / 4 - yoe / 100 + doy)
      (by omega) (by omega) (by omega)]
    set doe := yoe * 365 + yoe / 4 - yoe / 100 + doy with hdoe
    have hcrux := yoe_crux doe (by omega) (by omega)
    have m1 : yoe / 4 ≤ (yoe + 1) / 4 := by omega
    have m2 : (yoe + 1) / 100 ≤ yoe / 100 + 1 := by omega
    have h2a : 365 * yoe + yoe / 4 - yoe / 100 ≤ doe := by omega
    have h2b : doe < 365 * (yoe + 1) + (yoe + 1) / 4 - (yoe + 1) / 100 +
        (yoe + 1) / 400 := by omega
    have hyoe2 : (doe - doe / 1460 + doe / 36524 - doe / 146096) / 365 = yoe :=
      yoe_unique doe _ yoe hcrux.2.2.1 hcrux.2.2.2 h2a h2b hcrux.1 hcrux.2.1
        (by omega) (by omega)
    simp only [Prod.mk.injEq]
    rw [hyoe2]
    have hdoy2 : doe - (365 * yoe + yoe / 4 - yoe / 100) = doy := by omega
    rw [hdoy2]
    have hmp2 : (5 * doy + 2) / 153 = m + 9 := by omega
    rw [hmp2]
    rw [if_neg (show ¬ (m + 9 < 10) by omega)]
    refine ⟨by rw [if_pos (show m + 9 + -9 ≤ 2 by omega)]; omega, by omega, by omega⟩
  · rw [daysFromCivil_eq y m 1 (y / 400) (y - y / 400 * 400)
      (by rw [if_neg hm]; omega) (by omega) (by omega)]
    rw [if_pos (show m > 2 by omega)]
    set era := y / 400 with hera
    set yoe := y - era * 400 with hyoe
    set doy := (153 * (m + -3) + 2) / 5 + 1 - 1 with hdoy
    rw [civilFromDays_eq _ era (yoe * 365 + yoe / 4 - yoe / 100 + doy)
      (by omega) (by omega) (by omega)]
    set doe := yoe * 365 + yoe / 4 - yoe / 100 + doy with hdoe
    have hcrux := yoe_crux doe (by omega) (by omega)
    have m1 : yoe / 4 ≤ (yoe + 1) / 4 := by omega
    have m2 : (yoe + 1) / 100 ≤ yoe / 100 + 1 := by omega
    have h2a : 365 * yoe + yoe / 4 - yoe / 100 ≤ doe := by omega
    have h2b : doe < 365 * (yoe + 1) + (yoe + 1) / 4 - (yoe + 1) / 100 +
        (yoe + 1) / 400 := by omega
    have hyoe2 : (doe - doe / 1460 + doe / 36524 - doe / 146096) / 365 = yoe :=
      yoe_unique doe _ yoe hcrux.2.2.1 hcrux.2.2.2 h2a h2b hcrux.1 hcrux.2.1
        (by omega) (by omega)
    simp only [Prod.mk.injEq]
    rw [hyoe2]
    have hdoy2 : doe - (365 * yoe + yoe / 4 - yoe / 100) = doy := by omega
    rw [hdoy2]
    have hmp2 : (5 * doy + 2) / 153 = m + -3 := by omega
    rw [hmp2]
    rw [if_pos (show m + -3 < 10 by omega)]
    refine ⟨by rw [if_neg (show ¬ (m + -3 + 3 ≤ 2) by omega)]; omega, by omega, by omega⟩

/-- C5: for every granularity, the `startOf` truncation is idempotent, so a
point whose `epochMs` is exactly a bucket boundary (an instant in the image
of `startOf`) is assigned to the bucket starting at that very instant, not
the preceding one. -/
theorem startOf_boundary_identity (mode : BucketMode) (t : Int) :
    startOf mode (startOf mode t) = startOf mode t := by
  cases mode with
  | hour =>
    simp only [startOf, ONE_HOUR_MS]
    omega
  | day =>
    simp only [startOf, ONE_DAY_MS, ONE_HOUR_MS]
    omega
  | month =>
    simp only [startOf]
    have hr := civilFromDays_month_range (t / ONE_DAY_MS)
    set c := civilFromDays (t / ONE_DAY_MS) with hc
    have hdiv : daysFromCivil c.1 c.2.1 1 * ONE_DAY_MS / ONE_DAY_MS
        = daysFromCivil c.1 c.2.1 1 := by
      simp only [ONE_DAY_MS, ONE_HOUR_MS]
      omega
    rw [hdiv, civilFromDays_daysFromCivil_one c.1 c.2.1 hr.1 hr.2]

theorem updateBuckets_not_mem (entries : List (List Int × BucketStats))
    (key : List Int) (pt : MetricPoint) (start : Int)
    (h : key ∉ entries.map Prod.fst) :
    updateBuckets entries key pt start =
      entries ++ [(key, { sum := pt.value, count := 1,
                          startIso := start, startEpoch := start })] := by
  induction entries with
  | nil => rfl
  | cons e rest ih =>
    obtain ⟨k, s⟩ := e
    simp only [List.map_cons, List.mem_cons, not_or] at h
    rw [updateBuckets, if_neg (Ne.symm h.1), ih h.2]
    rfl

theorem map_update_id (entries : List (List Int × BucketStats)) (key : List Int)
    (f : List Int × BucketStats → List Int × BucketStats)
    (h : key ∉ entries.map Prod.fst) :
    entries.map (fun e => if e.1 = key then f e else e) = entries := by
  induction entries with
  | nil => rfl
  | cons e rest ih =>
    obtain ⟨k, s⟩ := e
    simp only [List.map_cons, List.mem_cons, not_or] at h
    simp only [List.map_cons]
    rw [if_neg (Ne.symm h.1), ih h.2]

theorem updateBuckets_mem (entries : List (List Int × BucketStats))
    (key : List Int) (pt : MetricPoint) (start : Int)
    (hnd : (entries.map Prod.fst).Nodup) (h : key ∈ entries.map Prod.fst) :
    updateBuckets entries key pt start =
      entries.map (fun e => if e.1 = key then
        (key, { e.2 with sum := e.2.sum + pt.value, count := e.2.count + 1 }) else e) := by
  induction entries with
  | nil => simp at h
  | cons e rest ih =>
    obtain ⟨k, s⟩ := e
    simp only [List.map_cons, List.nodup_cons] at hnd
    rw [updateBuckets]
    by_cases he : k = key
    · rw [if_pos he]
      simp only [List.map_cons]
      rw [if_pos he]
      rw [map_update_id rest key _ (he ▸ hnd.1)]
      subst he
      rfl
    · rw [if_neg he]
      simp only [List.map_cons]
      rw [if_neg he]
      simp only [List.map_cons, List.mem_cons] at h
      rcases h with h | h
      · exact absurd h.symm he
      · rw [ih hnd.2 h]

theorem fst_update (entries : List (List Int × BucketStats)) (key : List Int)
    (pt : MetricPoint) :
    (entries.map (fun e => if e.1 = key then
      (key, { e.2 with sum := e.2.sum + pt.value, count := e.2.count + 1 })
      else e)).map Prod.fst = entries.map Prod.fst := by
  rw [List.map_map]
  apply List.map_congr_left
  intro e he
  by_cases h1 : e.1 = key
  · simp [h1]
  · simp [h1]

theorem bucketInvariant_insert (mode : BucketMode) (procd : List MetricPoint)
    (entries : List (List Int × BucketStats)) (pt : MetricPoint)
    (h : BucketInvariant mode procd entries) :
    BucketInvariant mode (procd ++ [pt]) (insertBucketPoint mode entries pt) := by
  obtain ⟨hnd, hcomp, hent⟩ := h
  rw [insertBucketPoint]
  by_cases hk : bucketKey mode (startOf mode pt.epochMs) ∈ entries.map Prod.fst
  · rw [updateBuckets_mem entries _ pt _ hnd hk]
    refine ⟨?_, ?_, ?_⟩
    · rw [fst_update]
      exact hnd
    · intro q hq
      rw [fst_update]
      rcases List.mem_append.mp hq with hq | hq
      · exact hcomp q hq
      · rw [List.mem_singleton] at hq
        subst hq
        exact hk
    · intro e' he'
      obtain ⟨e, he, rfl⟩ := List.mem_map.mp he'
      obtain ⟨k, s⟩ := e
      obtain ⟨h1, h2, h3, h4, h5⟩ := hent (k, s) he
      dsimp only at h1 h2 h3 h4 h5 ⊢
      by_cases he1 : k = bucketKey mode (startOf mode pt.epochMs)
      · rw [if_pos he1]
        rw [he1] at h1 h4 h5
        dsimp only
        refine ⟨h1, h2, ?_, ?_, ?_⟩
        · obtain ⟨q, hq, hq2⟩ := h3
          exact ⟨q, List.mem_append_left _ hq, hq2⟩
        · rw [List.filter_append, List.length_append, ← h4]
          simp
        · rw [List.filter_append, List.map_append, List.sum_append, ← h5]
          simp
      · rw [if_neg he1]
        dsimp only
        have hpt : (decide (bucketKey mode (startOf mode pt.epochMs) = k)) = false :=
          decide_eq_false (Ne.symm he1)
        refine ⟨h1, h2, ?_, ?_, ?_⟩
        · obtain ⟨q, hq, hq2⟩ := h3
          exact ⟨q, List.mem_append_left _ hq, hq2⟩
        · rw [List.filter_append, List.length_append, ← h4]
          simp [hpt]
        · rw [List.filter_append, List.map_append, List.sum_append, ← h5]
          simp [hpt]
  · rw [updateBuckets_not_mem entries _ pt _ hk]
    have hproc : ∀ q ∈ procd,
        (decide (bucketKey mode (startOf mode q.epochMs)
          = bucketKey mode (startOf mode pt.epochMs))) = false := by
      intro q hq
      refine decide_eq_false ?_
      intro hcontra
      exact hk (hcontra ▸ hcomp q hq)
    refine ⟨?_, ?_, ?_⟩
    · rw [List.map_append]
      rw [List.nodup_append]
      exact ⟨hnd, List.nodup_singleton _, by
        intro a ha hb
        simp only [List.map_cons, List.map_nil, List.mem_singleton] at hb
        subst hb
        exact hk ha⟩
    · intro q hq
      rw [List.map_append]
      rcases List.mem_append.mp hq with hq | hq
      · exact List.mem_append_left _ (hcomp q hq)
      · rw [List.mem_singleton] at hq
        subst hq
        simp
    · intro e' he'
      rcases List.mem_append.mp he' with he | he
      · obtain ⟨h1, h2, h3, h4, h5⟩ := hent e' he
        have hne : e'.1 ≠ bucketKey mode (startOf mode pt.epochMs) := by
          intro hcontra
          exact hk (hcontra ▸ List.mem_map_of_mem Prod.fst he)
        have hpt : (decide (bucketKey mode (startOf mode pt.epochMs) = e'.1)) = false :=
          decide_eq_false (Ne.symm hne)
        refine ⟨h1, h2, ?_, ?_, ?_⟩
        · obtain ⟨q, hq, hq2⟩ := h3
          exact ⟨q, List.mem_append_left _ hq, hq2⟩
        · rw [List.filter_append, List.length_append, ← h4]
          simp [hpt]
        · rw [List.filter_append, List.map_append, List.sum_append, ← h5]
          simp [hpt]
      · rw [List.mem_singleton] at he
        subst he
        dsimp only
        refine ⟨rfl, rfl, ⟨pt, List.mem_append_right _ (List.mem_singleton.mpr rfl), rfl⟩,
          ?_, ?_⟩
        · rw [List.filter_append, List.length_append]
          rw [List.filter_eq_nil_iff.mpr (by
            intro q hq
            simp only [Bool.not_eq_true]
            exact hproc q hq)]
          simp
        · rw [List.filter_append, List.map_append, List.sum_append]
          rw [List.filter_eq_nil_iff.mpr (by
            intro q hq
            simp only [Bool.not_eq_true]
            exact hproc q hq)]
          simp

theorem bucketInvariant_foldl (mode : BucketMode) (pts : List MetricPoint) :
    ∀ (procd : List MetricPoint) (entries : List (List Int × BucketStats)),
      BucketInvariant mode procd entries →
      BucketInvariant mode (procd ++ pts) (pts.foldl (insertBucketPoint mode) entries) := by
  induction pts with
  | nil => intro procd entries h; simpa using h
  | cons p rest ih =>
    intro procd entries h
    have h2 := ih (procd ++ [p]) (insertBucketPoint mode entries p)
      (bucketInvariant_insert mode procd entries p h)
    simpa [List.append_assoc] using h2

theorem bucketInvariant_nil (mode : BucketMode) : BucketInvariant mode [] [] := by
  refine ⟨by simp, by simp, by simp⟩

theorem bucketKey_inj (mode : BucketMode) (t1 t2 : Int)
    (hk : bucketKey mode (startOf mode t1) = bucketKey mode (startOf mode t2)) :
    startOf mode t1 = startOf mode t2 := by
  cases mode with
  | hour =>
    simp only [startOf, bucketKey, List.cons.injEq, and_true] at hk
    obtain ⟨e1, e2, e3, e4⟩ := hk
    have r1 := daysFromCivil_civilFromDays ((t1 - t1 % ONE_HOUR_MS) / ONE_DAY_MS)
    have r2 := daysFromCivil_civilFromDays ((t2 - t2 % ONE_HOUR_MS) / ONE_DAY_MS)
    rw [e1, e2, e3] at r1
    have hdays : (t1 - t1 % ONE_HOUR_MS) / ONE_DAY_MS
        = (t2 - t2 % ONE_HOUR_MS) / ONE_DAY_MS := r1.symm.trans r2
    simp only [startOf, ONE_DAY_MS, ONE_HOUR_MS] at hdays e4 ⊢
    omega
  | day =>
    simp only [startOf, bucketKey, List.cons.injEq, and_true] at hk
    obtain ⟨e1, e2, e3⟩ := hk
    have r1 := daysFromCivil_civilFromDays ((t1 - t1 % ONE_DAY_MS) / ONE_DAY_MS)
    have r2 := daysFromCivil_civilFromDays ((t2 - t2 % ONE_DAY_MS) / ONE_DAY_MS)
    rw [e1, e2, e3] at r1
    have hdays : (t1 - t1 % ONE_DAY_MS) / ONE_DAY_MS
        = (t2 - t2 % ONE_DAY_MS) / ONE_DAY_MS := r1.symm.trans r2
    simp only [startOf, ONE_DAY_MS, ONE_HOUR_MS] at hdays ⊢
    omega
  | month =>
    simp only [startOf, bucketKey] at hk ⊢
    have hr1 := civilFromDays_month_range (t1 / ONE_DAY_MS)
    have hr2 := civilFromDays_month_range (t2 / ONE_DAY_MS)
    set c1 := civilFromDays (t1 / ONE_DAY_MS) with hc1
    set c2 := civilFromDays (t2 / ONE_DAY_MS) with hc2
    have hd1 : daysFromCivil c1.1 c1.2.1 1 * ONE_DAY_MS / ONE_DAY_MS
        = daysFromCivil c1.1 c1.2.1 1 := by
      simp only [ONE_DAY_MS, ONE_HOUR_MS]
      omega
    have hd2 : daysFromCivil c2.1 c2.2.1 1 * ONE_DAY_MS / ONE_DAY_MS
        = daysFromCivil c2.1 c2.2.1 1 := by
      simp only [ONE_DAY_MS, ONE_HOUR_MS]
      omega
    rw [hd1, hd2, civilFromDays_daysFromCivil_one c1.1 c1.2.1 hr1.1 hr1.2,
      civilFromDays_daysFromCivil_one c2.1 c2.2.1 hr2.1 hr2.2] at hk
    simp only [List.cons.injEq, and_true] at hk
    rw [hk.1, hk.2]

theorem filter_key_eq_filter_start (mode : BucketMode) (points : List MetricPoint)
    (t0 : Int) :
    points.filter (fun q => decide (bucketKey mode (startOf mode q.epochMs)
        = bucketKey mode (startOf mode t0)))
      = points.filter (fun q => decide (startOf mode q.epochMs = startOf mode t0)) := by
  apply List.filter_congr
  intro q hq
  rw [decide_eq_decide]
  constructor
  · exact fun h => bucketKey_inj mode q.epochMs t0 h
  · intro h
    rw [h]

theorem bucketLe_trans (a b c : AggregateBucket) (hab : bucketLe a b = true)
    (hbc : bucketLe b c = true) : bucketLe a c = true := by
  simp only [bucketLe, decide_eq_true_eq] at *
  omega

theorem bucketLe_total (a b : AggregateBucket) : (bucketLe a b || bucketLe b a) = true := by
  simp only [bucketLe, Bool.or_eq_true, decide_eq_true_eq]
  omega

theorem buildBuckets_invariant_mem (points : List MetricPoint) (mode : BucketMode)
    (limit : Nat) (b : AggregateBucket) (hb : b ∈ buildBuckets points mode limit) :
    ∃ e ∈ points.foldl (insertBucketPoint mode) [],
      b = { startIso := e.2.startIso,
            average := if e.2.count > 0 then some (e.2.sum / (e.2.count : ℚ)) else none,
            total := some e.2.sum,
            count := e.2.count } := by
  rw [buildBuckets] at hb
  by_cases hlen : points.length = 0
  · rw [if_pos hlen] at hb
    simp at hb
  · rw [if_neg hlen] at hb
    have hb2 := List.mem_of_mem_take hb
    rw [(List.mergeSort_perm _ bucketLe).mem_iff] at hb2
    obtain ⟨e, he, heq⟩ := List.mem_map.mp hb2
    exact ⟨e, he, heq.symm⟩

theorem buildBuckets_inv (points : List MetricPoint) (mode : BucketMode) :
    BucketInvariant mode points (points.foldl (insertBucketPoint mode) []) := by
  have h := bucketInvariant_foldl mode points [] [] (bucketInvariant_nil mode)
  rwa [List.nil_append] at h

/-- C10: every emitted bucket has `count ≥ 1`, a non-null `total` equal to
the sum of the values of exactly the input points whose truncated bucket
start equals the bucket's `startIso`, and a non-null `average` equal to
`total / count`; the `count = 0` branch in which `average` would be null
never fires for an emitted bucket. -/
theorem buildBuckets_bucket_sound (points : List MetricPoint) (mode : BucketMode)
    (limit : Nat) : ∀ b ∈ buildBuckets points mode limit,
      1 ≤ b.count ∧
      b.total = some (((points.filter fun q =>
          decide (startOf mode q.epochMs = b.startIso)).map (·.value)).sum) ∧
      ∃ t, b.total = some t ∧ b.average = some (t / (b.count : ℚ)) := by
  intro b hb
  obtain ⟨e, he, rfl⟩ := buildBuckets_invariant_mem points mode limit b hb
  obtain ⟨hnd, hcomp, hent⟩ := buildBuckets_inv points mode
  obtain ⟨h1, h2, h3, h4, h5⟩ := hent e he
  obtain ⟨q0, hq0, hq0s⟩ := h3
  have hmemf : q0 ∈ points.filter
      (fun q => decide (bucketKey mode (startOf mode q.epochMs) = e.1)) := by
    rw [List.mem_filter]
    refine ⟨hq0, ?_⟩
    rw [hq0s, h1]
    simp
  have hcount : 1 ≤ e.2.count := by
    rw [h4]
    exact List.length_pos_of_mem hmemf
  refine ⟨hcount, ?_, ?_⟩
  · dsimp only
    rw [h5]
    congr 1
    rw [h1, ← hq0s, filter_key_eq_filter_start mode points q0.epochMs, hq0s]
  · refine ⟨e.2.sum, rfl, ?_⟩
    dsimp only
    rw [if_pos (by omega : e.2.count > 0)]

theorem buildBuckets_sorted_limited (points : List MetricPoint) (mode : BucketMode)
    (limit : Nat) :
    (buildBuckets points mode limit).Pairwise (fun b1 b2 => b2.startIso < b1.startIso) ∧
    (buildBuckets points mode limit).length ≤ limit := by
  rw [buildBuckets]
  by_cases hlen : points.length = 0
  · rw [if_pos hlen]
    simp
  · rw [if_neg hlen]
    obtain ⟨hnd, hcomp, hent⟩ := buildBuckets_inv points mode
    refine ⟨?_, by simp⟩
    have hpair : (points.foldl (insertBucketPoint mode) []).Pairwise
        (fun e1 e2 => e1.1 ≠ e2.1) := List.pairwise_map.mp hnd
    have hne : ((points.foldl (insertBucketPoint mode) []).map (fun e =>
        ({ startIso := e.2.startIso,
           average := if e.2.count > 0 then some (e.2.sum / (e.2.count : ℚ)) else none,
           total := some e.2.sum,
           count := e.2.count } : AggregateBucket))).Pairwise
        (fun b1 b2 => b1.startIso ≠ b2.startIso) := by
      rw [List.pairwise_map]
      refine List.Pairwise.imp_of_mem ?_ hpair
      intro e1 e2 h1m h2m hne12
      obtain ⟨h1a, -, -, -, -⟩ := hent e1 h1m
      obtain ⟨h2a, -, -, -, -⟩ := hent e2 h2m
      dsimp only
      intro hs
      exact hne12 (by rw [h1a, h2a, hs])
    have hsorted := List.sorted_mergeSort bucketLe_trans bucketLe_total
      ((points.foldl (insertBucketPoint mode) []).map (fun e =>
        ({ startIso := e.2.startIso,
           average := if e.2.count > 0 then some (e.2.sum / (e.2.count : ℚ)) else none,
           total := some e.2.sum,
           count := e.2.count } : AggregateBucket)))
    have hne2 := ((List.mergeSort_perm _ bucketLe).pairwise_iff
      (fun h => Ne.symm h)).mpr hne
    refine List.Pairwise.sublist (List.take_sublist _ _) ((hsorted.and hne2).imp ?_)
    intro a b hab
    obtain ⟨hle, hneq⟩ := hab
    simp only [bucketLe, decide_eq_true_eq] at hle
    omega

/-- C4: each bucket list of `computeMetricAggregates` is sorted strictly
descending by the epoch of `startIso` (most recent first) and holds at most
the configured limit of entries: 12 hourly, 10 daily, 6 monthly. -/
theorem computeMetricAggregates_buckets_sorted_limited (points : List MetricPoint) :
    ((computeMetricAggregates points).hourlyBuckets.Pairwise
        (fun b1 b2 => b2.startIso < b1.startIso) ∧
      (computeMetricAggregates points).hourlyBuckets.length ≤ 12) ∧
    ((computeMetricAggregates points).dailyBuckets.Pairwise
        (fun b1 b2 => b2.startIso < b1.startIso) ∧
      (computeMetricAggregates points).dailyBuckets.length ≤ 10) ∧
    ((computeMetricAggregates points).monthlyBuckets.Pairwise
        (fun b1 b2 => b2.startIso < b1.startIso) ∧
      (computeMetricAggregates points).monthlyBuckets.length ≤ 6) := by
  match points with
  | [] =>
    refine ⟨⟨?_, ?_⟩, ⟨?_, ?_⟩, ?_, ?_⟩ <;> simp [computeMetricAggregates]
  | p :: ps =>
    rw [aggregates_hourlyBuckets_cons, aggregates_dailyBuckets_cons,
      aggregates_monthlyBuckets_cons]
    exact ⟨buildBuckets_sorted_limited (p :: ps) .hour 12,
      buildBuckets_sorted_limited (p :: ps) .day 10,
      buildBuckets_sorted_limited (p :: ps) .month 6⟩

/-- Witness for C10 at the one-point series `[("t", 0, 2)]`, hourly mode,
limit 12: the single emitted bucket starts at epoch 0 with count 1, total 2
and average 2/1. -/
theorem buildBuckets_bucket_sound_witness :
    (⟨0, some 2, some 2, 1⟩ : AggregateBucket) ∈
        buildBuckets [⟨"t", 0, 2⟩] .hour 12 ∧
    (1 ≤ (⟨0, some 2, some 2, 1⟩ : AggregateBucket).count ∧
      (⟨0, some 2, some 2, 1⟩ : AggregateBucket).total =
        some ((([⟨"t", 0, 2⟩] : List MetricPoint).filter fun q =>
          decide (startOf .hour q.epochMs =
            (⟨0, some 2, some 2, 1⟩ : AggregateBucket).startIso)).map (·.value)).sum ∧
      ∃ t, (⟨0, some 2, some 2, 1⟩ : AggregateBucket).total = some t ∧
        (⟨0, some 2, some 2, 1⟩ : AggregateBucket).average =
          some (t / ((⟨0, some 2, some 2, 1⟩ : AggregateBucket).count : ℚ))) :=
  ⟨by norm_num [buildBuckets, insertBucketPoint, updateBuckets, startOf, bucketKey,
      civilFromDays, ONE_DAY_MS, ONE_HOUR_MS],
    buildBuckets_bucket_sound [⟨"t", 0, 2⟩] .hour 12 _
      (by norm_num [buildBuckets, insertBucketPoint, updateBuckets, startOf, bucketKey,
        civilFromDays, ONE_DAY_MS, ONE_HOUR_MS])⟩

end Dash
